import Mathlib

/-!
Verification of the video-user-interaction repository: a shallow embedding of
its core pipeline (interaction fetch, batched video join, category and
interaction aggregation, freshness cache, realtime stream lifecycle) together
with proofs and refutations of the specification's claims.

Sources embedded:
* backend Express routes (src/unnamed/part_000, part_001),
* frontend App.tsx (src/web-interaction/src/App.tsx),
* Dashboard with TTL cache (src/unnamed/part_005, part_004).
-/

namespace VideoApp

/-- Interaction document (subcollection `users/{id}/interactions`).
`activity` is `Option String` because Firestore documents may lack the field;
`time` is the ordering key. -/
structure Interaction where
  interactionId : String
  activity : Option String
  time : Nat
  videoId : String
deriving DecidableEq

/-- Content record from the `shorts-recommend-system` collection, restricted to
the fields the embedded operations read: `id` (lookup key) and `category`
(possibly absent). -/
structure ContentRecord where
  id : String
  category : Option String
deriving DecidableEq

/-! ### JS `Map` model (insertion-ordered association list)

`videosMap = new Map(); videosMap.set(doc.data().id, doc.data())`:
`set` updates an existing key in place, otherwise appends; `get` finds the
(unique, in practice first) binding. -/

/-- `Map.get`, returning `none` for a missing key (JS `undefined`). -/
def mapGet (m : List (String × ContentRecord)) (k : String) : Option ContentRecord :=
  match m with
  | [] => none
  | p :: ps => if p.1 = k then some p.2 else mapGet ps k

/-- `Map.set`: update the first binding of `k` in place, else append. -/
def mapSet (m : List (String × ContentRecord)) (k : String) (v : ContentRecord) :
    List (String × ContentRecord) :=
  match m with
  | [] => [(k, v)]
  | p :: ps => if p.1 = k then (k, v) :: ps else p :: mapSet ps k v

/-! ### Batched video join (backend route lines 71-98, frontend `fetchVideoDetails`) -/

/-- `new Set(...)` insertion: keep a value unless it was already seen. -/
def distinctAux (seen : List String) : List String → List String
  | [] => []
  | x :: xs =>
    if x ∈ seen then distinctAux seen xs
    else x :: distinctAux (x :: seen) xs

/-- `[...new Set(interactions.map(i => i.videoId))]`: first-occurrence
deduplication, preserving insertion order. -/
def distinctIds (l : List String) : List String := distinctAux [] l

/-- The batching loop: `for (let i = 0; i < videoIds.length; i += 10)
batches.push(videoIds.slice(i, i + 10))` (frontend), equivalently the
backend's `slice(0, 10)` query followed by the `i = 10, 20, ...` loop. -/
def chunkBatches (ids : List String) : List (List String) :=
  match ids with
  | [] => []
  | x :: xs => (x :: xs).take 10 :: chunkBatches ((x :: xs).drop 10)
termination_by ids.length
decreasing_by
  simp only [List.length_drop, List.length_cons]
  omega

/-- Firestore `where('id', 'in', batch)` on the content collection: the records
whose `id` field is one of the batch's values. -/
def queryIn (coll : List ContentRecord) (batch : List String) : List ContentRecord :=
  coll.filter (fun r => batch.contains r.id)

/-- Merge the snapshots of all issued batches into the single id-to-record map
(`snapshot.forEach(doc => videosMap.set(doc.data().id, doc.data()))`). -/
def mergeBatches (coll : List ContentRecord) (bs : List (List String)) :
    List (String × ContentRecord) :=
  bs.foldl (fun m b => (queryIn coll b).foldl (fun m' r => mapSet m' r.id r) m) []

/-- `fetchVideoDetails` (all-success path): zero ids issue no query and give the
empty map; otherwise every chunk of 10 is queried and merged. -/
def fetchVideoDetails (coll : List ContentRecord) (ids : List String) :
    List (String × ContentRecord) :=
  mergeBatches coll (chunkBatches ids)

/-! ### Decoration step (`interactionsWithVideo`) -/

/-- The JS value stored in the `video` field: `undefined`, `null`, or a record. -/
inductive VideoField where
  | undef : VideoField
  | null : VideoField
  | found : ContentRecord → VideoField
deriving DecidableEq

/-- An interaction extended with the `video` field. -/
structure JoinedInteraction where
  interaction : Interaction
  video : VideoField
deriving DecidableEq

/-- `videosMap.get(id)` as a JS value: `undefined` when the key is missing. -/
def jsMapGet (m : List (String × ContentRecord)) (k : String) : VideoField :=
  match mapGet m k with
  | some r => VideoField.found r
  | none => VideoField.undef

/-- JS `x || null` on a `video` value: records are truthy, `undefined` and
`null` are falsy and become `null`. -/
def orNull (v : VideoField) : VideoField :=
  match v with
  | VideoField.found r => VideoField.found r
  | _ => VideoField.null

/-- `interactions.map(i => ({...i, video: videosMap.get(i.videoId) || null}))`. -/
def interactionsWithVideo (m : List (String × ContentRecord))
    (inters : List Interaction) : List JoinedInteraction :=
  inters.map (fun it => ⟨it, orNull (jsMapGet m it.videoId)⟩)

/-! ### Bucket counters (JS objects `summary[key] = (summary[key] || 0) + 1`)

A JS object is an insertion-ordered map with unique string keys: assignment
updates an existing key in place, otherwise appends. -/

/-- One `obj[k] = (obj[k] || 0) + 1` step. -/
def bump (m : List (String × Nat)) (k : String) : List (String × Nat) :=
  match m with
  | [] => [(k, 1)]
  | p :: ps => if p.1 = k then (p.1, p.2 + 1) :: ps else p :: bump ps k

/-- `obj[k] || 0`. -/
def lookupCount (m : List (String × Nat)) (k : String) : Nat :=
  match m with
  | [] => 0
  | p :: ps => if p.1 = k then p.2 else lookupCount ps k

/-- Sum of all bucket counts. -/
def sumCounts (m : List (String × Nat)) : Nat :=
  (m.map (fun p => p.2)).sum

/-! ### CategoryAggregator (`GET /api/video-categories`, backend lines 189-218) -/

/-- `video.category || 'Unknown'`: the bucket a record falls into — its
`category` field, or `"Unknown"` when the field is absent or empty (falsy). -/
def categoryKey (r : ContentRecord) : String :=
  match r.category with
  | none => "Unknown"
  | some s => if s = "" then "Unknown" else s

/-- Full-collection scan:
`snapshot.forEach(doc => { categories[cat] = (categories[cat] || 0) + 1 })`. -/
def categoryAggregate (coll : List ContentRecord) : List (String × Nat) :=
  coll.foldl (fun m r => bump m (categoryKey r)) []

/-! ### Interaction summary (`GET /api/users/:userId/interaction-summary`,
backend lines 158-185) -/

/-- JS truthiness of the `activity` field: present and non-empty. -/
def truthyActivity (i : Interaction) : Bool :=
  match i.activity with
  | some s => decide (s ≠ "")
  | none => false

/-- `forEach(doc => { if (activity) summary[activity] = (summary[activity] || 0) + 1 })`:
interactions with a falsy `activity` are skipped, there is no fallback bucket. -/
def interactionSummary (inters : List Interaction) : List (String × Nat) :=
  inters.foldl
    (fun m i =>
      match i.activity with
      | some s => if s = "" then m else bump m s
      | none => m)
    []

/-! ### InteractionFetcher (`GET /api/users/:userId/interactions`, lines 49-68) -/

/-- `parseInt(req.query.limit) || 20`: absent (NaN) or `0` fall back to 20. -/
def effectiveLimit (limitQ : Option Nat) : Nat :=
  match limitQ with
  | none => 20
  | some n => if n = 0 then 20 else n

/-- Ordering used by `orderBy('time', 'desc')`. -/
def timeDesc (a b : Interaction) : Prop := b.time ≤ a.time

instance : DecidableRel timeDesc := fun a b => Nat.decLe b.time a.time

instance : IsTotal Interaction timeDesc :=
  ⟨fun a b => Or.symm (Nat.le_total a.time b.time)⟩

instance : IsTrans Interaction timeDesc :=
  ⟨fun _ _ _ h1 h2 => Nat.le_trans h2 h1⟩

/-- `orderBy('time', 'desc').limit(limit)` over the user's interaction
subcollection. -/
def fetchInteractions (inters : List Interaction) (limitQ : Option Nat) :
    List Interaction :=
  (List.insertionSort timeDesc inters).take (effectiveLimit limitQ)

/-! ### FreshnessCache (Dashboard, src/unnamed/part_005)

The cache lives in a single localStorage slot (`CATEGORY_CACHE_KEY`) holding
the JSON text `JSON.stringify({ data, timestamp })`.  We embed the slot as
`Option (List Char)` (absent / stored string) together with an executable
JSON printer and the matching parser, so the round trip through the stored
serialized entry is a real theorem, not an assumption. -/

/-- The stored `{ data: CategorySummary, timestamp: epoch-millis }` entry. -/
structure CacheEntry where
  data : List (String × Nat)
  timestamp : Nat
deriving DecidableEq

/-- `CATEGORY_CACHE_EXPIRY = 60 * 60 * 1000`. -/
def CATEGORY_CACHE_EXPIRY : Nat := 60 * 60 * 1000

/-- JSON string escaping as `JSON.stringify` performs it on the characters that
occur: quote and backslash get a backslash prefix. -/
def escapeChar (c : Char) : List Char :=
  if c = '"' ∨ c = '\\' then ['\\', c] else [c]

/-- Body of a JSON string literal. -/
def escapeList (s : List Char) : List Char := s.flatMap escapeChar

/-- `"..."` with escaping. -/
def encodeString (s : String) : List Char :=
  '"' :: (escapeList s.data ++ ['"'])

/-- Decimal digit character. -/
def digitChar (d : Nat) : Char :=
  match d with
  | 0 => '0' | 1 => '1' | 2 => '2' | 3 => '3' | 4 => '4'
  | 5 => '5' | 6 => '6' | 7 => '7' | 8 => '8' | _ => '9'

/-- Decimal rendering of a natural number. -/
def natToChars (n : Nat) : List Char :=
  if n < 10 then [digitChar n]
  else natToChars (n / 10) ++ [digitChar (n % 10)]
termination_by n
decreasing_by
  exact Nat.div_lt_self (by omega) (by omega)

/-- One `"key":count` member. -/
def encodePair (p : String × Nat) : List Char :=
  encodeString p.1 ++ ':' :: natToChars p.2

/-- Comma-separated members followed by the closing brace of the `data`
object. -/
def encodePairs (l : List (String × Nat)) : List Char :=
  match l with
  | [] => ['\x7d']
  | p :: ps =>
    encodePair p ++
      (match ps with
       | [] => ['\x7d']
       | _ => ',' :: encodePairs ps)

/-- `JSON.stringify({ data: ..., timestamp: ... })`. -/
def encodeEntry (e : CacheEntry) : List Char :=
  "\x7b\"data\":\x7b".data ++
    (encodePairs e.data ++
      (",\"timestamp\":".data ++ (natToChars e.timestamp ++ ['\x7d'])))

/-- Consume an expected literal prefix. -/
def parseLit (pre cs : List Char) : Option (List Char) :=
  match pre, cs with
  | [], rest => some rest
  | p :: ps, c :: rest => if c = p then parseLit ps rest else none
  | _ :: _, [] => none

/-- Parse a JSON string body (after the opening quote) up to the closing
quote, undoing the backslash escapes. -/
def parseStrBody (cs : List Char) : Option (List Char × List Char) :=
  match cs with
  | [] => none
  | c :: rest =>
    if c = '"' then some ([], rest)
    else if c = '\\' then
      match rest with
      | [] => none
      | c2 :: rest2 => (parseStrBody rest2).map (fun p => (c2 :: p.1, p.2))
    else (parseStrBody rest).map (fun p => (c :: p.1, p.2))
termination_by cs.length
decreasing_by
  all_goals simp only [List.length_cons]
  all_goals omega

/-- Accumulate decimal digits until a non-digit. -/
def parseDigitsAcc (acc : Nat) (cs : List Char) : Nat × List Char :=
  match cs with
  | [] => (acc, [])
  | c :: rest =>
    if c.isDigit then parseDigitsAcc (acc * 10 + (c.toNat - 48)) rest
    else (acc, c :: rest)

/-- Parse a natural number (at least one digit). -/
def parseNat (cs : List Char) : Option (Nat × List Char) :=
  match cs with
  | [] => none
  | c :: rest => if c.isDigit then some (parseDigitsAcc 0 (c :: rest)) else none

/-- Parse the members of the `data` object (position just after its opening
brace), consuming the closing brace.  `fuel` bounds the number of members; the
callers pass the input length, which always suffices. -/
def parsePairsFuel (fuel : Nat) (cs : List Char) : Option (List (String × Nat) × List Char) :=
  match cs with
  | [] => none
  | c :: rest =>
    if c = '\x7d' then some ([], rest)
    else
      match fuel with
      | 0 => none
      | fuel' + 1 =>
        if c = '"' then
          match parseStrBody rest with
          | some (key, ':' :: r2) =>
            match parseNat r2 with
            | some (v, ',' :: r4) =>
              match parsePairsFuel fuel' r4 with
              | some (ps, r) => some ((String.mk key, v) :: ps, r)
              | none => none
            | some (v, c2 :: r4) =>
              if c2 = '\x7d' then some ([(String.mk key, v)], r4) else none
            | _ => none
          | _ => none
        else none

/-- `JSON.parse` specialized to the entry shape this program ever stores. -/
def decodeEntry (cs : List Char) : Option CacheEntry :=
  match parseLit ("\x7b\"data\":\x7b".data) cs with
  | none => none
  | some r1 =>
    match parsePairsFuel r1.length r1 with
    | none => none
    | some (ps, r2) =>
      match parseLit (",\"timestamp\":".data) r2 with
      | none => none
      | some r3 =>
        match parseNat r3 with
        | none => none
        | some (t, r4) => if r4 = ['\x7d'] then some ⟨ps, t⟩ else none

/-- `localStorage.setItem(CATEGORY_CACHE_KEY, JSON.stringify({data, timestamp: now}))`. -/
def cacheWrite (x : List (String × Nat)) (now : Nat) : Option (List Char) :=
  some (encodeEntry ⟨x, now⟩)

/-- `localStorage.removeItem(CATEGORY_CACHE_KEY)` (the refresh handler). -/
def cacheInvalidate (_slot : Option (List Char)) : Option (List Char) := none

/-- The read path of `fetchCategoryData`: missing slot is a miss, otherwise
parse the entry and serve its data when `now - timestamp < CATEGORY_CACHE_EXPIRY`,
else report a miss (stale). -/
def cacheRead (slot : Option (List Char)) (now : Nat) : Option (List (String × Nat)) :=
  match slot with
  | none => none
  | some s =>
    match decodeEntry s with
    | none => none
    | some e =>
      if now - e.timestamp < CATEGORY_CACHE_EXPIRY then some e.data else none

/-- Result of one `fetchCategoryData` run: the counts handed to the UI, the
slot afterwards, and whether the aggregator endpoint was invoked. -/
structure FetchResult where
  counts : List (String × Nat)
  slot : Option (List Char)
  refetched : Bool
deriving DecidableEq

/-- `fetchCategoryData` (default path, `ignoreCache = false`): serve a fresh
cache hit without contacting the aggregator; on a miss run the full scan
(`GET /api/video-categories`), store it with the current timestamp, return it. -/
def fetchCategoryData (coll : List ContentRecord) (slot : Option (List Char))
    (now : Nat) : FetchResult :=
  match cacheRead slot now with
  | some d => ⟨d, slot, false⟩
  | none =>
    let d := categoryAggregate coll
    ⟨d, some (encodeEntry ⟨d, now⟩), true⟩

/-! ### Issue/consume traces of the batch queries (§5 fan-out/fan-in)

One event per suspension point of the join code: `issue i` is the creation of
batch `i`'s query promise (`getDocs(...)` / `.get()` called), `consume i` is
the point where its result is awaited and consumed. -/

inductive BatchEvent where
  | issue : Nat → BatchEvent
  | consume : Nat → BatchEvent
deriving DecidableEq

/-- Whether an event starts a query. -/
def isIssue (e : BatchEvent) : Bool :=
  match e with
  | BatchEvent.issue _ => true
  | BatchEvent.consume _ => false

/-- Fan-out/fan-in: once any batch result has been consumed, no further batch
query is started. -/
def noIssueAfterConsume (tr : List BatchEvent) : Bool :=
  match tr with
  | [] => true
  | BatchEvent.issue _ :: rest => noIssueAfterConsume rest
  | BatchEvent.consume _ :: rest => rest.all (fun e => !(isIssue e))

/-- Backend route (part_000 lines 78-97): the first batch is queried and
awaited, then each later batch is queried and awaited inside the `for` loop —
`issue 0, consume 0, issue 1, consume 1, ...`. -/
def backendTrace (m : Nat) : List BatchEvent :=
  (List.range m).flatMap (fun i => [BatchEvent.issue i, BatchEvent.consume i])

/-- Frontend `fetchVideoDetails`: `batches.map(batch => getDocs(...))` starts
every query, then `await Promise.all(results)` consumes them. -/
def frontendTrace (m : Nat) : List BatchEvent :=
  (List.range m).map BatchEvent.issue ++ (List.range m).map BatchEvent.consume

/-! ### RealtimeInteractionStream lifecycle (App.tsx lines 196-247, 307-311)

Events of one subscription's lifetime: `notif s` — the `onSnapshot` callback
fires with snapshot `s` and (when non-empty) starts the async re-join
(`await fetchVideoDetails`); `cancel` — the effect cleanup runs
`unsubscribe()`, which stops future snapshot callbacks; `finish s` — the
in-flight re-join for snapshot `s` resumes and runs `setInteractions`.
The callback closure contains no generation token or cancellation check
before `setInteractions`, so a pending `finish` writes even after `cancel`. -/

inductive StreamEvent where
  | notif : List Interaction → StreamEvent
  | cancel : StreamEvent
  | finish : List Interaction → StreamEvent
deriving DecidableEq

/-- Subscription state: `active` — unsubscribe not yet called; `pending` —
re-joins in flight; `cancelled` — the cancel point has passed; `lateWrites` —
number of `setInteractions` calls made after the cancel point. -/
structure StreamState where
  active : Bool
  pending : List (List Interaction)
  cancelled : Bool
  lateWrites : Nat
deriving DecidableEq

/-- Fresh subscription. -/
def streamInit : StreamState := ⟨true, [], false, 0⟩

/-- One event step, as the code behaves. -/
def streamStep (s : StreamState) (e : StreamEvent) : StreamState :=
  match e with
  | StreamEvent.notif snap =>
    if s.active then { s with pending := s.pending ++ [snap] } else s
  | StreamEvent.cancel => { s with active := false, cancelled := true }
  | StreamEvent.finish snap =>
    if snap ∈ s.pending then
      { s with
          pending := s.pending.erase snap,
          lateWrites := s.lateWrites + (if s.cancelled then 1 else 0) }
    else s

/-- Run a subscription trace from the fresh state. -/
def runStream (tr : List StreamEvent) : StreamState :=
  tr.foldl streamStep streamInit

/-! ### Join with possible batch-query failure (§7 propagation policy)

`fails b = true` means the lookup query for batch `b` rejects. -/

/-- Frontend `fetchVideoDetails` with the failure oracle: `Promise.all`
rejects as soon as any batch fails, the `catch` block logs and the function
`return videoDetailsMap` — which is still empty because the map is only
populated after all batches succeed. -/
def fetchVideoDetailsF (coll : List ContentRecord) (fails : List String → Bool)
    (ids : List String) : List (String × ContentRecord) :=
  if (chunkBatches ids).any fails then []
  else mergeBatches coll (chunkBatches ids)

/-- Frontend snapshot handler: decorate the interactions with whatever map the
(possibly failed) detail fetch produced.  No error reaches the caller. -/
def frontendJoinF (coll : List ContentRecord) (fails : List String → Bool)
    (inters : List Interaction) : List JoinedInteraction :=
  interactionsWithVideo
    (fetchVideoDetailsF coll fails (distinctIds (inters.map (fun i => i.videoId))))
    inters

/-- Backend route: the batch queries run inside the route's `try`; any
rejection reaches the `catch`, which answers 500 instead of a joined list. -/
def backendJoinF (coll : List ContentRecord) (fails : List String → Bool)
    (inters : List Interaction) : Except Nat (List JoinedInteraction) :=
  let ids := distinctIds (inters.map (fun i => i.videoId))
  if (chunkBatches ids).any fails then Except.error 500
  else Except.ok (interactionsWithVideo (mergeBatches coll (chunkBatches ids)) inters)

/-! ## Lemmas about the batching plan -/

theorem chunkBatches_length_aux (n : Nat) :
    ∀ ids : List String, ids.length ≤ n →
      (chunkBatches ids).length = (ids.length + 9) / 10 := by
  induction n with
  | zero =>
    intro ids h
    have hids : ids = [] := List.eq_nil_of_length_eq_zero (by omega)
    subst hids
    simp [chunkBatches]
  | succ n ih =>
    intro ids h
    match ids with
    | [] => simp [chunkBatches]
    | x :: xs =>
      rw [chunkBatches]
      rw [List.length_cons, ih ((x :: xs).drop 10)
        (by rw [List.length_drop]; simp only [List.length_cons] at h ⊢; omega)]
      rw [List.length_drop]
      simp only [List.length_cons]
      omega

theorem chunkBatches_length (ids : List String) :
    (chunkBatches ids).length = (ids.length + 9) / 10 :=
  chunkBatches_length_aux ids.length ids (Nat.le_refl _)

theorem chunkBatches_batch_le_aux (n : Nat) :
    ∀ ids : List String, ids.length ≤ n →
      ∀ b ∈ chunkBatches ids, b.length ≤ 10 := by
  induction n with
  | zero =>
    intro ids h
    have hids : ids = [] := List.eq_nil_of_length_eq_zero (by omega)
    subst hids
    simp [chunkBatches]
  | succ n ih =>
    intro ids h b hb
    match ids with
    | [] => simp [chunkBatches] at hb
    | x :: xs =>
      rw [chunkBatches] at hb
      rcases List.mem_cons.mp hb with h1 | h2
      · subst h1
        rw [List.length_take]
        omega
      · exact ih ((x :: xs).drop 10)
          (by rw [List.length_drop]; simp only [List.length_cons] at h ⊢; omega) b h2

theorem chunkBatches_batch_le (ids : List String) :
    ∀ b ∈ chunkBatches ids, b.length ≤ 10 :=
  chunkBatches_batch_le_aux ids.length ids (Nat.le_refl _)

theorem chunkBatches_mem_aux (n : Nat) :
    ∀ ids : List String, ids.length ≤ n →
      ∀ b ∈ chunkBatches ids, ∀ x ∈ b, x ∈ ids := by
  induction n with
  | zero =>
    intro ids h
    have hids : ids = [] := List.eq_nil_of_length_eq_zero (by omega)
    subst hids
    simp [chunkBatches]
  | succ n ih =>
    intro ids h b hb x hx
    match ids with
    | [] => simp [chunkBatches] at hb
    | y :: ys =>
      rw [chunkBatches] at hb
      rcases List.mem_cons.mp hb with h1 | h2
      · subst h1
        exact List.take_subset 10 (y :: ys) hx
      · exact List.drop_subset 10 (y :: ys)
          (ih ((y :: ys).drop 10)
            (by rw [List.length_drop]; simp only [List.length_cons] at h ⊢; omega) b h2 x hx)

theorem chunkBatches_mem (ids : List String) :
    ∀ b ∈ chunkBatches ids, ∀ x ∈ b, x ∈ ids :=
  chunkBatches_mem_aux ids.length ids (Nat.le_refl _)

/-! ## Lemmas about deduplication -/

theorem mem_distinctAux (l : List String) :
    ∀ (seen : List String) (a : String),
      a ∈ distinctAux seen l ↔ a ∈ l ∧ a ∉ seen := by
  induction l with
  | nil => intro seen a; simp [distinctAux]
  | cons x xs ih =>
    intro seen a
    by_cases hx : x ∈ seen
    · rw [distinctAux, if_pos hx, ih]
      constructor
      · rintro ⟨h1, h2⟩
        exact ⟨List.mem_cons_of_mem x h1, h2⟩
      · rintro ⟨h1, h2⟩
        rcases List.mem_cons.mp h1 with rfl | h1
        · exact absurd hx h2
        · exact ⟨h1, h2⟩
    · rw [distinctAux, if_neg hx]
      constructor
      · intro h
        rcases List.mem_cons.mp h with rfl | h
        · exact ⟨List.mem_cons_self _ _, hx⟩
        · have := (ih (x :: seen) a).mp h
          refine ⟨List.mem_cons_of_mem x this.1, ?_⟩
          intro hs
          exact this.2 (List.mem_cons_of_mem x hs)
      · rintro ⟨h1, h2⟩
        rcases List.mem_cons.mp h1 with rfl | h1
        · exact List.mem_cons_self _ _
        · by_cases hax : a = x
          · subst hax; exact List.mem_cons_self _ _
          · exact List.mem_cons_of_mem x
              ((ih (x :: seen) a).mpr ⟨h1, by
                intro hs
                rcases List.mem_cons.mp hs with h | h
                · exact hax h
                · exact h2 h⟩)

theorem nodup_distinctAux (l : List String) :
    ∀ seen : List String, (distinctAux seen l).Nodup := by
  induction l with
  | nil => intro seen; simp [distinctAux]
  | cons x xs ih =>
    intro seen
    by_cases hx : x ∈ seen
    · rw [distinctAux, if_pos hx]; exact ih seen
    · rw [distinctAux, if_neg hx]
      refine List.nodup_cons.mpr ⟨?_, ih (x :: seen)⟩
      intro hmem
      exact ((mem_distinctAux xs (x :: seen) x).mp hmem).2 (List.mem_cons_self _ _)

/-- `distinctIds` has no duplicates and exactly the members of its input. -/
theorem distinctIds_spec (l : List String) :
    (distinctIds l).Nodup ∧ ∀ a, a ∈ distinctIds l ↔ a ∈ l := by
  refine ⟨nodup_distinctAux l [], fun a => ?_⟩
  rw [distinctIds, mem_distinctAux]
  simp

/-! ## Lemmas about the id-to-record map -/

theorem mapGet_mapSet (m : List (String × ContentRecord)) (k k' : String)
    (v : ContentRecord) :
    mapGet (mapSet m k v) k' = if k' = k then some v else mapGet m k' := by
  induction m with
  | nil =>
    by_cases h : k = k'
    · subst h; simp [mapGet, mapSet]
    · simp [mapGet, mapSet, h, Ne.symm h]
  | cons p ps ih =>
    by_cases hpk : p.1 = k
    · simp only [mapSet, if_pos hpk]
      by_cases h : k = k'
      · subst h; simp [mapGet]
      · simp [mapGet, h, Ne.symm h, hpk]
    · simp only [mapSet, if_neg hpk]
      by_cases hpk' : p.1 = k'
      · have h : ¬ (k' = k) := fun he => hpk (hpk'.trans he)
        simp [mapGet, hpk', h]
      · simp [mapGet, hpk', ih]

theorem queryIn_id_mem (coll : List ContentRecord) (batch : List String)
    (r : ContentRecord) (hr : r ∈ queryIn coll batch) : r.id ∈ batch := by
  have h := (List.mem_filter.mp hr).2
  simpa using h

theorem mergeRecords_keys (ids : List String) (batch : List String)
    (hb : ∀ x ∈ batch, x ∈ ids) :
    ∀ rs : List ContentRecord, (∀ r ∈ rs, r.id ∈ batch) →
      ∀ m : List (String × ContentRecord),
        (∀ k r, mapGet m k = some r → k ∈ ids) →
        ∀ k r, mapGet (rs.foldl (fun m' r => mapSet m' r.id r) m) k = some r →
          k ∈ ids := by
  intro rs
  induction rs with
  | nil => intro _ m hm k r h; exact hm k r h
  | cons a as ih =>
    intro hrs m hm k r h
    refine ih (fun r hr => hrs r (List.mem_cons_of_mem a hr))
      (mapSet m a.id a) ?_ k r h
    intro k' r' h'
    rw [mapGet_mapSet] at h'
    by_cases hk : k' = a.id
    · exact hk ▸ hb a.id (hrs a (List.mem_cons_self a as))
    · rw [if_neg hk] at h'
      exact hm k' r' h'

theorem mergeBatches_keys (coll : List ContentRecord) (ids : List String)
    (bs : List (List String)) (hbs : ∀ b ∈ bs, ∀ x ∈ b, x ∈ ids) :
    ∀ k r, mapGet (mergeBatches coll bs) k = some r → k ∈ ids := by
  suffices h : ∀ m : List (String × ContentRecord),
      (∀ k r, mapGet m k = some r → k ∈ ids) →
      ∀ k r,
        mapGet (bs.foldl
          (fun m b => (queryIn coll b).foldl (fun m' r => mapSet m' r.id r) m) m) k
          = some r → k ∈ ids by
    refine h [] ?_
    intro k r hkr
    simp [mapGet] at hkr
  induction bs with
  | nil => intro m hm k r hkr; exact hm k r hkr
  | cons b rest ih =>
    intro m hm k r hkr
    refine ih (fun b' hb' => hbs b' (List.mem_cons_of_mem b hb')) _ ?_ k r hkr
    exact mergeRecords_keys ids b (hbs b (List.mem_cons_self b rest))
      (queryIn coll b) (fun r hr => queryIn_id_mem coll b r hr) m hm

/-! ## Bucket-counter lemmas -/

theorem sumCounts_bump (m : List (String × Nat)) (k : String) :
    sumCounts (bump m k) = sumCounts m + 1 := by
  induction m with
  | nil => simp [bump, sumCounts]
  | cons p ps ih =>
    by_cases h : p.1 = k
    · simp [bump, h, sumCounts]
      omega
    · simp [bump, h, sumCounts] at ih ⊢
      omega

theorem lookupCount_bump (m : List (String × Nat)) (k k' : String) :
    lookupCount (bump m k) k' = lookupCount m k' + (if k' = k then 1 else 0) := by
  induction m with
  | nil =>
    by_cases h : k = k'
    · subst h; simp [bump, lookupCount]
    · simp [bump, lookupCount, h, Ne.symm h]
  | cons p ps ih =>
    by_cases hpk : p.1 = k
    · by_cases h : k' = k
      · subst h; simp [bump, lookupCount, hpk]
      · have hne : ¬ (k = k') := fun he => h (Eq.symm he)
        simp [bump, lookupCount, hpk, h, hne]
    · simp only [bump, if_neg hpk, lookupCount]
      by_cases hpk' : p.1 = k'
      · have h : ¬ (k' = k) := fun he => hpk (by rw [hpk', he])
        simp [hpk', h]
      · simp [hpk', ih]

theorem sumCounts_categoryFold (coll : List ContentRecord) :
    ∀ m, sumCounts (coll.foldl (fun m r => bump m (categoryKey r)) m)
      = sumCounts m + coll.length := by
  induction coll with
  | nil => intro m; simp
  | cons r rs ih =>
    intro m
    rw [List.foldl_cons, ih, sumCounts_bump]
    simp only [List.length_cons]
    omega

theorem lookupCount_categoryFold (coll : List ContentRecord) :
    ∀ m k, lookupCount (coll.foldl (fun m r => bump m (categoryKey r)) m) k
      = lookupCount m k
        + (coll.filter (fun r => decide (categoryKey r = k))).length := by
  induction coll with
  | nil => intro m k; simp
  | cons r rs ih =>
    intro m k
    rw [List.foldl_cons, ih, lookupCount_bump]
    by_cases h : categoryKey r = k
    · simp [List.filter_cons, h]
      omega
    · have hne : ¬ (k = categoryKey r) := fun he => h (Eq.symm he)
      simp [List.filter_cons, h, hne]

theorem sumCounts_summaryFold (inters : List Interaction) :
    ∀ m, sumCounts (inters.foldl
        (fun m i =>
          match i.activity with
          | some s => if s = "" then m else bump m s
          | none => m) m)
      = sumCounts m + (inters.filter truthyActivity).length := by
  induction inters with
  | nil => intro m; simp
  | cons i is ih =>
    intro m
    rw [List.foldl_cons, ih]
    cases ha : i.activity with
    | none => simp [List.filter_cons, truthyActivity, ha]
    | some s =>
      by_cases hs : s = ""
      · simp [List.filter_cons, truthyActivity, ha, hs]
      · simp [List.filter_cons, truthyActivity, ha, hs, sumCounts_bump]
        omega

theorem lookupCount_summaryFold (inters : List Interaction) :
    ∀ m k, lookupCount (inters.foldl
        (fun m i =>
          match i.activity with
          | some s => if s = "" then m else bump m s
          | none => m) m) k
      = lookupCount m k
        + (inters.filter
            (fun i => decide (i.activity = some k) && decide (k ≠ ""))).length := by
  induction inters with
  | nil => intro m k; simp
  | cons i is ih =>
    intro m k
    rw [List.foldl_cons, ih]
    cases ha : i.activity with
    | none => simp [List.filter_cons, ha]
    | some s =>
      by_cases hs : s = ""
      · subst hs
        by_cases hk : k = ""
        · subst hk; simp [List.filter_cons, ha]
        · have hne : ¬ ("" = k) := fun he => hk (Eq.symm he)
          simp [List.filter_cons, ha, hk, hne]
      · have hred : (match some s with
            | some s => if s = "" then m else bump m s
            | none => m) = bump m s := by simp [hs]
        rw [hred, lookupCount_bump]
        by_cases hk : k = s
        · subst hk
          simp [List.filter_cons, ha, hs]
          omega
        · have hne : ¬ (s = k) := fun he => hk (Eq.symm he)
          simp [List.filter_cons, ha, hk, hne]

/-! ## Decoration helpers -/

theorem orNull_ne_undef (v : VideoField) : orNull v ≠ VideoField.undef := by
  cases v <;> simp [orNull]

theorem orNull_jsMapGet_found (m : List (String × ContentRecord)) (k : String)
    (r : ContentRecord) (h : orNull (jsMapGet m k) = VideoField.found r) :
    mapGet m k = some r := by
  cases hg : mapGet m k with
  | none => simp [jsMapGet, hg, orNull] at h
  | some r' =>
    simp only [jsMapGet, hg, orNull] at h
    cases h
    rfl

theorem orNull_jsMapGet_none (m : List (String × ContentRecord)) (k : String)
    (h : mapGet m k = none) : orNull (jsMapGet m k) = VideoField.null := by
  simp [jsMapGet, h, orNull]

theorem orNull_jsMapGet_some (m : List (String × ContentRecord)) (k : String)
    (r : ContentRecord) (h : mapGet m k = some r) :
    orNull (jsMapGet m k) = VideoField.found r := by
  simp [jsMapGet, h, orNull]

/-! ## Claim theorems -/

/-- C1: for every interaction sequence, with `ids` its distinct `videoId`
values (so `k = ids.length`), the batched join issues exactly
`ceil(k/10) = (k+9)/10` lookup queries, each covering at most 10 ids; for
zero distinct ids no query is issued (`chunkBatches [] = []`) and the
returned mapping is empty; the ids of the returned records — and hence all
keys of the merged mapping — are a subset of the requested ids; and
`distinctIds` is the distinct-value set: duplicate-free with exactly the
members of the input. -/
theorem c1_batched_join_query_plan (coll : List ContentRecord)
    (inters : List Interaction) :
    (distinctIds (inters.map (fun i => i.videoId))).Nodup
    ∧ (∀ a, a ∈ distinctIds (inters.map (fun i => i.videoId))
        ↔ a ∈ inters.map (fun i => i.videoId))
    ∧ (chunkBatches (distinctIds (inters.map (fun i => i.videoId)))).length
        = ((distinctIds (inters.map (fun i => i.videoId))).length + 9) / 10
    ∧ (∀ b ∈ chunkBatches (distinctIds (inters.map (fun i => i.videoId))),
        b.length ≤ 10)
    ∧ chunkBatches ([] : List String) = []
    ∧ fetchVideoDetails coll [] = []
    ∧ (∀ b ∈ chunkBatches (distinctIds (inters.map (fun i => i.videoId))),
        ∀ r ∈ queryIn coll b,
          r.id ∈ distinctIds (inters.map (fun i => i.videoId)))
    ∧ (∀ k r,
        mapGet (fetchVideoDetails coll (distinctIds (inters.map (fun i => i.videoId)))) k
            = some r
          → k ∈ distinctIds (inters.map (fun i => i.videoId))) := by
  refine ⟨(distinctIds_spec _).1, (distinctIds_spec _).2,
    chunkBatches_length _, chunkBatches_batch_le _,
    by simp [chunkBatches], by simp [fetchVideoDetails, mergeBatches, chunkBatches],
    ?_, ?_⟩
  · intro b hb r hr
    exact chunkBatches_mem _ b hb r.id (queryIn_id_mem coll b r hr)
  · exact mergeBatches_keys coll _ _ (chunkBatches_mem _)

/-- Witness for C1: the spec's 15-distinct-ids scenario issues exactly
2 = ceil(15/10) queries. -/
theorem c1_batched_join_query_plan_witness :
    (chunkBatches (distinctIds
        (((List.range 15).map (fun n =>
          ({ interactionId := "i", activity := none, time := 0,
             videoId := Nat.repr n } : Interaction))).map (fun i => i.videoId)))).length
      = ((distinctIds
          (((List.range 15).map (fun n =>
            ({ interactionId := "i", activity := none, time := 0,
               videoId := Nat.repr n } : Interaction))).map (fun i => i.videoId))).length + 9) / 10
    ∧ ((distinctIds
          (((List.range 15).map (fun n =>
            ({ interactionId := "i", activity := none, time := 0,
               videoId := Nat.repr n } : Interaction))).map (fun i => i.videoId))).length + 9) / 10
        = 2
    ∧ "v1" ∈ distinctIds
        (([⟨"i1", none, 0, "v1"⟩] : List Interaction).map (fun i => i.videoId)) := by
  refine ⟨(c1_batched_join_query_plan [] _).2.2.1, by decide, ?_⟩
  refine (c1_batched_join_query_plan [⟨"v1", none⟩]
    [⟨"i1", none, 0, "v1"⟩]).2.2.2.2.2.2.2 "v1" ⟨"v1", none⟩ ?_
  simp [fetchVideoDetails, mergeBatches, chunkBatches, distinctIds, distinctAux,
    queryIn, mapSet, mapGet]

/-- C3: the decoration step yields exactly one output per input interaction,
in the same order; each output keeps its input interaction and carries
`video = videosMap.get(videoId) || null` — never `undefined`: exactly the
record the mapping holds whenever the mapping holds one (hit direction and
its converse), and exactly `null` on a miss.  No interaction is dropped for a
missing video. -/
theorem c3_join_output_decoration (m : List (String × ContentRecord))
    (inters : List Interaction) :
    (interactionsWithVideo m inters).length = inters.length
    ∧ ∀ (i : Nat) (h : i < inters.length)
        (h2 : i < (interactionsWithVideo m inters).length),
        ((interactionsWithVideo m inters).get ⟨i, h2⟩).interaction = inters.get ⟨i, h⟩
        ∧ ((interactionsWithVideo m inters).get ⟨i, h2⟩).video ≠ VideoField.undef
        ∧ (∀ r, ((interactionsWithVideo m inters).get ⟨i, h2⟩).video = VideoField.found r
            → mapGet m (inters.get ⟨i, h⟩).videoId = some r)
        ∧ (mapGet m (inters.get ⟨i, h⟩).videoId = none
            → ((interactionsWithVideo m inters).get ⟨i, h2⟩).video = VideoField.null)
        ∧ (∀ r, mapGet m (inters.get ⟨i, h⟩).videoId = some r
            → ((interactionsWithVideo m inters).get ⟨i, h2⟩).video = VideoField.found r) := by
  refine ⟨List.length_map _ _, ?_⟩
  intro i h h2
  have hm : (interactionsWithVideo m inters).get ⟨i, h2⟩
      = ⟨inters.get ⟨i, h⟩, orNull (jsMapGet m (inters.get ⟨i, h⟩).videoId)⟩ := by
    simp [interactionsWithVideo, List.get_eq_getElem, List.getElem_map]
  rw [hm]
  exact ⟨rfl, orNull_ne_undef _,
    fun r hr => orNull_jsMapGet_found m _ r hr,
    fun hn => orNull_jsMapGet_none m _ hn,
    fun r hr => orNull_jsMapGet_some m _ r hr⟩

/-- Witness for C3 at the spec's §8 scenario: one matched video, one broken
reference, output in time-descending input order. -/
theorem c3_join_output_decoration_witness :
    (interactionsWithVideo [("v1", ⟨"v1", none⟩)]
        [⟨"i1", some "view", 3, "v1"⟩, ⟨"i2", some "view", 1, "v2"⟩]).length
      = ([⟨"i1", some "view", 3, "v1"⟩, ⟨"i2", some "view", 1, "v2"⟩] : List Interaction).length
    ∧ interactionsWithVideo [("v1", ⟨"v1", none⟩)]
        [⟨"i1", some "view", 3, "v1"⟩, ⟨"i2", some "view", 1, "v2"⟩]
      = [⟨⟨"i1", some "view", 3, "v1"⟩, VideoField.found ⟨"v1", none⟩⟩,
         ⟨⟨"i2", some "view", 1, "v2"⟩, VideoField.null⟩]
    ∧ ((interactionsWithVideo [("v1", ⟨"v1", none⟩)]
          [⟨"i1", some "view", 3, "v1"⟩, ⟨"i2", some "view", 1, "v2"⟩]).get
            ⟨1, by decide⟩).video = VideoField.null
    ∧ ((interactionsWithVideo [("v1", ⟨"v1", none⟩)]
          [⟨"i1", some "view", 3, "v1"⟩, ⟨"i2", some "view", 1, "v2"⟩]).get
            ⟨0, by decide⟩).video = VideoField.found ⟨"v1", none⟩ := by
  refine ⟨(c3_join_output_decoration [("v1", ⟨"v1", none⟩)] _).1, by decide, ?_, ?_⟩
  · exact ((c3_join_output_decoration [("v1", ⟨"v1", none⟩)]
      [⟨"i1", some "view", 3, "v1"⟩, ⟨"i2", some "view", 1, "v2"⟩]).2
        1 (by decide) (by decide)).2.2.2.1 (by decide)
  · exact ((c3_join_output_decoration [("v1", ⟨"v1", none⟩)]
      [⟨"i1", some "view", 3, "v1"⟩, ⟨"i2", some "view", 1, "v2"⟩]).2
        0 (by decide) (by decide)).2.2.2.2 ⟨"v1", none⟩ (by decide)

/-- C4: the category aggregator maps the empty collection to `{}`; every
record increments exactly the bucket `categoryKey r` — its `category` field,
or the literal `"Unknown"` bucket when the field is absent or empty — so each
bucket's count is the number of records keyed to it and the counts sum to the
number of records scanned. -/
theorem c4_category_aggregation (coll : List ContentRecord) :
    categoryAggregate ([] : List ContentRecord) = []
    ∧ sumCounts (categoryAggregate coll) = coll.length
    ∧ (∀ k, lookupCount (categoryAggregate coll) k
        = (coll.filter (fun r => decide (categoryKey r = k))).length)
    ∧ (∀ r : ContentRecord,
        (r.category = none ∨ r.category = some "") → categoryKey r = "Unknown")
    ∧ (∀ (r : ContentRecord) (s : String),
        r.category = some s → s ≠ "" → categoryKey r = s) := by
  refine ⟨rfl, ?_, ?_, ?_, ?_⟩
  · have h := sumCounts_categoryFold coll []
    simpa [categoryAggregate, sumCounts] using h
  · intro k
    have h := lookupCount_categoryFold coll [] k
    simpa [categoryAggregate, lookupCount] using h
  · rintro r (h | h) <;> simp [categoryKey, h]
  · intro r s hs hne
    simp [categoryKey, hs, hne]

/-- Witness for C4 at a concrete collection: one categorized record, one with
the field absent and one with it empty both landing in `"Unknown"`. -/
theorem c4_category_aggregation_witness :
    sumCounts (categoryAggregate [⟨"a", some "Kids"⟩, ⟨"b", none⟩, ⟨"c", some ""⟩])
      = ([⟨"a", some "Kids"⟩, ⟨"b", none⟩, ⟨"c", some ""⟩] : List ContentRecord).length
    ∧ categoryAggregate [⟨"a", some "Kids"⟩, ⟨"b", none⟩, ⟨"c", some ""⟩]
      = [("Kids", 1), ("Unknown", 2)]
    ∧ categoryKey ⟨"b", none⟩ = "Unknown"
    ∧ categoryKey ⟨"c", some ""⟩ = "Unknown"
    ∧ categoryKey ⟨"a", some "Kids"⟩ = "Kids" := by
  refine ⟨(c4_category_aggregation [⟨"a", some "Kids"⟩, ⟨"b", none⟩, ⟨"c", some ""⟩]).2.1,
    by decide,
    (c4_category_aggregation []).2.2.2.1 ⟨"b", none⟩ (Or.inl rfl),
    (c4_category_aggregation []).2.2.2.1 ⟨"c", some ""⟩ (Or.inr rfl),
    (c4_category_aggregation []).2.2.2.2 ⟨"a", some "Kids"⟩ "Kids" rfl (by decide)⟩

/-- C10: the per-user interaction summary counts exactly the interactions with
a truthy (present, non-empty) `activity`: each bucket `k` holds the number of
interactions with `activity = k` (no `"Unknown"` fallback — a missing or empty
activity increments nothing), the counts sum to the number of
truthy-activity interactions, and that sum is strictly below the total on
the concrete input containing an activity-less interaction. -/
theorem c10_interaction_summary_truthy_only (inters : List Interaction) :
    sumCounts (interactionSummary inters) = (inters.filter truthyActivity).length
    ∧ (∀ k, lookupCount (interactionSummary inters) k
        = (inters.filter
            (fun i => decide (i.activity = some k) && decide (k ≠ ""))).length)
    ∧ sumCounts (interactionSummary
        [⟨"i1", none, 0, "v"⟩, ⟨"i2", some "like", 0, "v"⟩, ⟨"i3", some "", 0, "v"⟩]) = 1
    ∧ ([⟨"i1", none, 0, "v"⟩, ⟨"i2", some "like", 0, "v"⟩,
        ⟨"i3", some "", 0, "v"⟩] : List Interaction).length = 3 := by
  refine ⟨?_, ?_, by decide, by decide⟩
  · have h := sumCounts_summaryFold inters []
    simpa [interactionSummary, sumCounts] using h
  · intro k
    have h := lookupCount_summaryFold inters [] k
    simpa [interactionSummary, lookupCount] using h

/-- Witness for C10: the summary of a user with one missing-activity, one
`"like"` and one empty-activity interaction counts exactly the single truthy
one. -/
theorem c10_interaction_summary_truthy_only_witness :
    sumCounts (interactionSummary
        [⟨"i1", none, 0, "v"⟩, ⟨"i2", some "like", 0, "v"⟩])
      = (([⟨"i1", none, 0, "v"⟩,
          ⟨"i2", some "like", 0, "v"⟩] : List Interaction).filter truthyActivity).length
    ∧ interactionSummary [⟨"i1", none, 0, "v"⟩, ⟨"i2", some "like", 0, "v"⟩]
      = [("like", 1)] := by
  refine ⟨(c10_interaction_summary_truthy_only
    [⟨"i1", none, 0, "v"⟩, ⟨"i2", some "like", 0, "v"⟩]).1, ?_⟩
  decide

/-- C9: for every user interaction set and requested limit, the fetch returns
interactions ordered by `time` descending, truncated to the limit (default 20
when the parameter is absent, `n` when a positive `n` is supplied): the
result has exactly `min limit n` elements, all drawn from the user's
interactions — and all of them (up to order) whenever the user has at most
`limit` — and it is the most-recent prefix: the input splits (up to
permutation) into the result and a remainder every element of which is no
newer than every returned element; a user with no interactions yields the
empty list (the success path), never an error. -/
theorem c9_interaction_fetch (inters : List Interaction) (limitQ : Option Nat) :
    List.Pairwise timeDesc (fetchInteractions inters limitQ)
    ∧ (fetchInteractions inters limitQ).length ≤ effectiveLimit limitQ
    ∧ effectiveLimit none = 20
    ∧ (∀ n, 0 < n → effectiveLimit (some n) = n)
    ∧ (∀ x ∈ fetchInteractions inters limitQ, x ∈ inters)
    ∧ (inters.length ≤ effectiveLimit limitQ
        → (fetchInteractions inters limitQ).Perm inters)
    ∧ fetchInteractions [] limitQ = []
    ∧ (fetchInteractions inters limitQ).length
        = min (effectiveLimit limitQ) inters.length
    ∧ (∃ rest : List Interaction,
        inters.Perm (fetchInteractions inters limitQ ++ rest)
        ∧ ∀ x ∈ fetchInteractions inters limitQ, ∀ y ∈ rest, y.time ≤ x.time) := by
  have hsortlen : (List.insertionSort timeDesc inters).length = inters.length :=
    (List.perm_insertionSort timeDesc inters).length_eq
  refine ⟨?_, ?_, rfl, ?_, ?_, ?_, ?_, ?_, ?_⟩
  · exact List.Pairwise.sublist (List.take_sublist _ _)
      (List.sorted_insertionSort timeDesc inters)
  · rw [fetchInteractions, List.length_take]
    omega
  · intro n hn
    simp [effectiveLimit]
    omega
  · intro x hx
    have h1 : x ∈ List.insertionSort timeDesc inters :=
      List.take_subset _ _ hx
    exact (List.perm_insertionSort timeDesc inters).subset h1
  · intro hle
    rw [fetchInteractions, List.take_of_length_le (by omega)]
    exact List.perm_insertionSort timeDesc inters
  · simp [fetchInteractions, List.insertionSort]
  · rw [fetchInteractions, List.length_take, hsortlen]
  · refine ⟨(List.insertionSort timeDesc inters).drop (effectiveLimit limitQ), ?_, ?_⟩
    · have h := (List.perm_insertionSort timeDesc inters).symm
      rw [← List.take_append_drop (effectiveLimit limitQ)
        (List.insertionSort timeDesc inters)] at h
      exact h
    · have hp : List.Pairwise timeDesc (List.insertionSort timeDesc inters) :=
        List.sorted_insertionSort timeDesc inters
      rw [← List.take_append_drop (effectiveLimit limitQ)
        (List.insertionSort timeDesc inters)] at hp
      intro x hx y hy
      exact (List.pairwise_append.mp hp).2.2 x hx y hy

/-- Witness for C9: two interactions (times 1 and 3), default limit — output
is time-descending, within the limit, and a positive explicit limit is taken
verbatim. -/
theorem c9_interaction_fetch_witness :
    List.Pairwise timeDesc
      (fetchInteractions [⟨"i2", some "view", 1, "v2"⟩, ⟨"i1", some "view", 3, "v1"⟩] none)
    ∧ effectiveLimit (some 5) = 5
    ∧ fetchInteractions [⟨"i2", some "view", 1, "v2"⟩, ⟨"i1", some "view", 3, "v1"⟩] none
      = [⟨"i1", some "view", 3, "v1"⟩, ⟨"i2", some "view", 1, "v2"⟩]
    ∧ (fetchInteractions [⟨"i2", some "view", 1, "v2"⟩,
          ⟨"i1", some "view", 3, "v1"⟩] none).Perm
        [⟨"i2", some "view", 1, "v2"⟩, ⟨"i1", some "view", 3, "v1"⟩]
    ∧ (fetchInteractions [⟨"a", none, 3, "v"⟩, ⟨"b", none, 5, "v"⟩,
          ⟨"c", none, 1, "v"⟩] (some 2)).length
        = min (effectiveLimit (some 2))
            ([⟨"a", none, 3, "v"⟩, ⟨"b", none, 5, "v"⟩,
              ⟨"c", none, 1, "v"⟩] : List Interaction).length
    ∧ fetchInteractions [⟨"a", none, 3, "v"⟩, ⟨"b", none, 5, "v"⟩,
          ⟨"c", none, 1, "v"⟩] (some 2)
        = [⟨"b", none, 5, "v"⟩, ⟨"a", none, 3, "v"⟩] := by
  refine ⟨(c9_interaction_fetch
      [⟨"i2", some "view", 1, "v2"⟩, ⟨"i1", some "view", 3, "v1"⟩] none).1,
    (c9_interaction_fetch [] (some 5)).2.2.2.1 5 (by decide), by decide,
    (c9_interaction_fetch
      [⟨"i2", some "view", 1, "v2"⟩, ⟨"i1", some "view", 3, "v1"⟩]
      none).2.2.2.2.2.1 (by decide),
    (c9_interaction_fetch
      [⟨"a", none, 3, "v"⟩, ⟨"b", none, 5, "v"⟩, ⟨"c", none, 1, "v"⟩]
      (some 2)).2.2.2.2.2.2.2.1, by decide⟩

/-! ## Fan-out/fan-in lemmas -/

theorem noIssueAfterConsume_all_consumes (l : List BatchEvent)
    (h : ∀ e ∈ l, isIssue e = false) : noIssueAfterConsume l = true := by
  induction l with
  | nil => rfl
  | cons e rest ih =>
    cases e with
    | issue i =>
      have := h _ (List.mem_cons_self _ _)
      simp [isIssue] at this
    | consume i =>
      simp only [noIssueAfterConsume, List.all_eq_true]
      intro e he
      simp [h e (List.mem_cons_of_mem _ he)]

theorem noIssueAfterConsume_split (l1 l2 : List BatchEvent)
    (h1 : ∀ e ∈ l1, isIssue e = true) (h2 : ∀ e ∈ l2, isIssue e = false) :
    noIssueAfterConsume (l1 ++ l2) = true := by
  induction l1 with
  | nil => simpa using noIssueAfterConsume_all_consumes l2 h2
  | cons e rest ih =>
    cases e with
    | issue i =>
      simp only [List.cons_append, noIssueAfterConsume]
      exact ih (fun e he => h1 e (List.mem_cons_of_mem _ he))
    | consume i =>
      have := h1 _ (List.mem_cons_self _ _)
      simp [isIssue] at this

/-- C2 refutation: the backend per-batch `await` loop consumes batch 0's
result before issuing batch 1's query (here for 2 batches, i.e. 11-20
distinct ids), so the fan-out/fan-in discipline fails there; the frontend
`Promise.all` path satisfies it for every batch count. -/
theorem c2_backend_batches_sequential :
    noIssueAfterConsume (backendTrace 2) = false
    ∧ backendTrace 2 = [BatchEvent.issue 0, BatchEvent.consume 0,
                        BatchEvent.issue 1, BatchEvent.consume 1]
    ∧ (∀ m, noIssueAfterConsume (frontendTrace m) = true) := by
  refine ⟨by decide, by decide, ?_⟩
  intro m
  refine noIssueAfterConsume_split _ _ ?_ ?_
  · intro e he
    rcases List.mem_map.mp he with ⟨i, _, rfl⟩
    rfl
  · intro e he
    rcases List.mem_map.mp he with ⟨i, _, rfl⟩
    rfl

/-- C7 refutation: a snapshot notification received just before `unsubscribe`
leaves a re-join in flight; when it resumes after the cancel point the
callback — which contains no generation token or cancellation check — still
runs `setInteractions`, producing one emission after cancel (`lateWrites = 1`).
Direct snapshot callbacks after `unsubscribe` do stop (second conjunct). -/
theorem c7_inflight_rejoin_writes_after_cancel :
    runStream [StreamEvent.notif [⟨"i1", some "view", 3, "v1"⟩],
               StreamEvent.cancel,
               StreamEvent.finish [⟨"i1", some "view", 3, "v1"⟩]]
      = ⟨false, [], true, 1⟩
    ∧ runStream [StreamEvent.cancel,
                 StreamEvent.notif [⟨"i1", some "view", 3, "v1"⟩]]
      = ⟨false, [], true, 0⟩ := by
  constructor <;> decide

/-- C8 refutation: when the single batch for id `"v1"` fails, the frontend
`fetchVideoDetails` catch block swallows the rejection and returns the empty
map, so the join completes with `video = null` — even though the record
exists and an all-success lookup finds it (third conjunct).  The backend
route does fail the whole join with a 500 (second conjunct). -/
theorem c8_frontend_swallows_batch_failure :
    frontendJoinF [⟨"v1", some "Kids"⟩] (fun b => b.contains "v1")
        [⟨"i1", some "view", 3, "v1"⟩]
      = [⟨⟨"i1", some "view", 3, "v1"⟩, VideoField.null⟩]
    ∧ backendJoinF [⟨"v1", some "Kids"⟩] (fun b => b.contains "v1")
        [⟨"i1", some "view", 3, "v1"⟩]
      = Except.error 500
    ∧ fetchVideoDetails [⟨"v1", some "Kids"⟩] ["v1"]
      = [("v1", ⟨"v1", some "Kids"⟩)] := by
  refine ⟨?_, ?_, ?_⟩ <;>
    simp [frontendJoinF, backendJoinF, fetchVideoDetailsF, fetchVideoDetails,
      mergeBatches, chunkBatches, distinctIds, distinctAux,
      interactionsWithVideo, jsMapGet, mapGet, mapSet, orNull, queryIn]

/-! ## JSON round-trip lemmas -/

theorem parseLit_self (pre : List Char) :
    ∀ rest : List Char, parseLit pre (pre ++ rest) = some rest := by
  induction pre with
  | nil => intro rest; rfl
  | cons p ps ih => intro rest; simp [parseLit, ih]

theorem parseStrBody_escape (s : List Char) :
    ∀ suffix : List Char,
      parseStrBody (escapeList s ++ '"' :: suffix) = some (s, suffix) := by
  induction s with
  | nil =>
    intro suffix
    rw [show escapeList [] = [] from rfl, List.nil_append, parseStrBody.eq_def]
    simp
  | cons c cs ih =>
    intro suffix
    by_cases h : c = '"' ∨ c = '\\'
    · have hesc : escapeList (c :: cs) = '\\' :: c :: escapeList cs := by
        simp [escapeList, escapeChar, h]
      rw [hesc, List.cons_append, List.cons_append, parseStrBody.eq_def]
      simp [ih]
    · have hesc : escapeList (c :: cs) = c :: escapeList cs := by
        simp [escapeList, escapeChar, h]
      have h1 : ¬ (c = '"') := fun hc => h (Or.inl hc)
      have h2 : ¬ (c = '\\') := fun hc => h (Or.inr hc)
      rw [hesc, List.cons_append, parseStrBody.eq_def]
      simp [h1, h2, ih]

theorem digitChar_isDigit (d : Nat) : (digitChar d).isDigit = true := by
  unfold digitChar
  split <;> decide

theorem digitChar_val (d : Nat) (h : d < 10) : (digitChar d).toNat - 48 = d := by
  interval_cases d <;> decide

theorem natToChars_digits (n : Nat) :
    ∀ c ∈ natToChars n, c.isDigit = true := by
  induction n using Nat.strong_induction_on with
  | _ n ih =>
    intro c hc
    rw [natToChars] at hc
    by_cases h : n < 10
    · rw [if_pos h] at hc
      rcases List.mem_singleton.mp hc with rfl
      exact digitChar_isDigit n
    · rw [if_neg h] at hc
      rcases List.mem_append.mp hc with h1 | h1
      · exact ih (n / 10) (Nat.div_lt_self (by omega) (by omega)) c h1
      · rcases List.mem_singleton.mp h1 with rfl
        exact digitChar_isDigit (n % 10)

theorem natToChars_ne_nil (n : Nat) : natToChars n ≠ [] := by
  rw [natToChars]
  by_cases h : n < 10
  · simp [h]
  · simp [h]

theorem parseDigitsAcc_stop (a : Nat) (s : List Char)
    (h : ∀ c, s.head? = some c → c.isDigit = false) :
    parseDigitsAcc a s = (a, s) := by
  cases s with
  | nil => rfl
  | cons c rest =>
    have hc : c.isDigit = false := h c rfl
    simp [parseDigitsAcc, hc]

theorem parseDigitsAcc_append (ds : List Char) :
    ∀ a suffix, (∀ c ∈ ds, c.isDigit = true) →
      parseDigitsAcc a (ds ++ suffix)
        = parseDigitsAcc (ds.foldl (fun x c => x * 10 + (c.toNat - 48)) a) suffix := by
  induction ds with
  | nil => intro a suffix _; rfl
  | cons c cs ih =>
    intro a suffix h
    have hc : c.isDigit = true := h c (List.mem_cons_self _ _)
    rw [List.cons_append, parseDigitsAcc]
    simp only [hc, if_true]
    rw [ih _ suffix (fun c hc => h c (List.mem_cons_of_mem _ hc))]
    rfl

theorem natToChars_foldl (n : Nat) :
    ∀ a : Nat, (natToChars n).foldl (fun x c => x * 10 + (c.toNat - 48)) a
      = a * 10 ^ (natToChars n).length + n := by
  induction n using Nat.strong_induction_on with
  | _ n ih =>
    intro a
    rw [natToChars]
    by_cases h : n < 10
    · rw [if_pos h]
      simp [List.foldl, digitChar_val n h]
    · rw [if_neg h]
      rw [List.foldl_append, ih (n / 10) (Nat.div_lt_self (by omega) (by omega)) a]
      simp only [List.foldl, List.length_append, List.length_singleton]
      rw [digitChar_val (n % 10) (Nat.mod_lt n (by omega))]
      rw [pow_succ, Nat.add_mul, Nat.mul_assoc]
      omega

theorem parseNat_round (n : Nat) (suffix : List Char)
    (h : ∀ c, suffix.head? = some c → c.isDigit = false) :
    parseNat (natToChars n ++ suffix) = some (n, suffix) := by
  obtain ⟨c, cs, hcc⟩ := List.exists_cons_of_ne_nil (natToChars_ne_nil n)
  have hcd : c.isDigit = true := by
    refine natToChars_digits n c ?_
    rw [hcc]
    exact List.mem_cons_self _ _
  rw [hcc, List.cons_append, parseNat]
  simp only [hcd, if_true]
  rw [← List.cons_append, ← hcc,
    parseDigitsAcc_append (natToChars n) 0 suffix (natToChars_digits n),
    parseDigitsAcc_stop _ _ h, natToChars_foldl]
  simp

theorem one_le_length_encodePair (p : String × Nat) :
    1 ≤ (encodePair p).length := by
  simp [encodePair, encodeString]

theorem length_le_encodePairs (l : List (String × Nat)) :
    l.length ≤ (encodePairs l).length := by
  induction l with
  | nil => simp [encodePairs]
  | cons p ps ih =>
    have h1 := one_le_length_encodePair p
    cases ps with
    | nil =>
      simp only [encodePairs, List.length_append, List.length_cons,
        List.length_nil, List.length_singleton]
      omega
    | cons q qs =>
      simp only [encodePairs, List.length_append, List.length_cons] at ih ⊢
      omega

theorem parsePairsFuel_last (f : Nat) (key : List Char) (v : Nat)
    (suffix : List Char) :
    parsePairsFuel (f + 1)
        ('"' :: (escapeList key ++ ('"' :: (':' :: (natToChars v ++ ('\x7d' :: suffix))))))
      = some ([(String.mk key, v)], suffix) := by
  have hnum := parseNat_round v ('\x7d' :: suffix) (by
    intro c hc
    rw [List.head?_cons] at hc
    injection hc with h2
    subst h2
    decide)
  rw [parsePairsFuel.eq_def]
  simp +decide [parseStrBody_escape, hnum]

theorem parsePairsFuel_cons (f : Nat) (key : List Char) (v : Nat)
    (rest : List Char) :
    parsePairsFuel (f + 1)
        ('"' :: (escapeList key ++ ('"' :: (':' :: (natToChars v ++ (',' :: rest))))))
      = match parsePairsFuel f rest with
        | some (ps, r) => some ((String.mk key, v) :: ps, r)
        | none => none := by
  have hnum := parseNat_round v (',' :: rest) (by
    intro c hc
    rw [List.head?_cons] at hc
    injection hc with h2
    subst h2
    decide)
  cases hres : parsePairsFuel f rest with
  | none =>
    rw [parsePairsFuel.eq_def]
    simp +decide [parseStrBody_escape, hnum, hres]
  | some pr =>
    rw [parsePairsFuel.eq_def]
    simp +decide [parseStrBody_escape, hnum, hres]

theorem encodePairs_round (l : List (String × Nat)) :
    ∀ (f : Nat) (suffix : List Char), l.length ≤ f →
      parsePairsFuel f (encodePairs l ++ suffix) = some (l, suffix) := by
  induction l with
  | nil =>
    intro f suffix _
    rw [show encodePairs [] = ['\x7d'] from rfl, List.singleton_append,
      parsePairsFuel.eq_def]
    simp
  | cons p ps ih =>
    intro f suffix hf
    obtain ⟨f', rfl⟩ : ∃ f', f = f' + 1 := by
      cases f with
      | zero => simp at hf
      | succ k => exact ⟨k, rfl⟩
    cases ps with
    | nil =>
      have hs : encodePairs [p] ++ suffix
          = '"' :: (escapeList p.1.data
              ++ ('"' :: (':' :: (natToChars p.2 ++ ('\x7d' :: suffix))))) := by
        simp [encodePairs, encodePair, encodeString]
      rw [hs, parsePairsFuel_last]
    | cons q qs =>
      have hs : encodePairs (p :: q :: qs) ++ suffix
          = '"' :: (escapeList p.1.data
              ++ ('"' :: (':' :: (natToChars p.2
                  ++ (',' :: (encodePairs (q :: qs) ++ suffix)))))) := by
        simp [encodePairs, encodePair, encodeString]
      rw [hs, parsePairsFuel_cons,
        ih f' suffix (by simp only [List.length_cons] at hf ⊢; omega)]

theorem decodeEntry_encodeEntry (e : CacheEntry) :
    decodeEntry (encodeEntry e) = some e := by
  have hfuel : e.data.length
      ≤ (encodePairs e.data
          ++ (",\"timestamp\":".data ++ (natToChars e.timestamp ++ ['\x7d']))).length := by
    rw [List.length_append]
    have h := length_le_encodePairs e.data
    omega
  rw [decodeEntry, encodeEntry, parseLit_self]
  simp only []
  rw [encodePairs_round e.data _ _ hfuel]
  simp only []
  rw [parseLit_self]
  simp only []
  rw [parseNat_round e.timestamp ['\x7d'] (by
    intro c hc
    rw [List.head?_cons] at hc
    injection hc with h2
    subst h2
    decide)]
  simp

/-- C5: the freshness cache laws.  `write(x)` followed by `read()` within the
TTL returns `x` unchanged — a genuine round trip through the stored
JSON-serialized entry — and `invalidate()` followed by `read()` misses for
every prior slot state. -/
theorem c5_freshness_cache_laws :
    (∀ (x : List (String × Nat)) (t now : Nat),
      now - t < CATEGORY_CACHE_EXPIRY → cacheRead (cacheWrite x t) now = some x)
    ∧ (∀ (slot : Option (List Char)) (now : Nat),
        cacheRead (cacheInvalidate slot) now = none) := by
  constructor
  · intro x t now h
    rw [cacheWrite, cacheRead, decodeEntry_encodeEntry]
    simp only []
    rw [if_pos h]
  · intro slot now
    rfl

/-- Witness for C5: a summary written at `t = 0` and read back at `t = 1000`
returns unchanged through the serialized entry; an invalidated slot misses. -/
theorem c5_freshness_cache_laws_witness :
    ((1000 : Nat) - 0 < CATEGORY_CACHE_EXPIRY)
    ∧ cacheRead (cacheWrite [("Kids", 2), ("Unknown", 1)] 0) 1000
        = some [("Kids", 2), ("Unknown", 1)]
    ∧ cacheRead (cacheInvalidate (cacheWrite [("Kids", 2), ("Unknown", 1)] 0)) 1000
        = none :=
  ⟨by decide,
   c5_freshness_cache_laws.1 [("Kids", 2), ("Unknown", 1)] 0 1000 (by decide),
   c5_freshness_cache_laws.2 (cacheWrite [("Kids", 2), ("Unknown", 1)] 0) 1000⟩

/-- C6: the TTL is 3600000 ms (one hour); a stored entry is served if and only
if `now - timestamp < TTL`; on the spec's scenario (entry written at `t = 0`)
a read at `t = 1000` hits without invoking the aggregator, while a read at
`t = 3700000` misses and triggers the full rescan, whose result is returned. -/
theorem c6_cache_ttl_boundary :
    CATEGORY_CACHE_EXPIRY = 3600000
    ∧ (∀ (e : CacheEntry) (now : Nat),
        cacheRead (some (encodeEntry e)) now = some e.data
          ↔ now - e.timestamp < CATEGORY_CACHE_EXPIRY)
    ∧ (∀ (x : List (String × Nat)) (coll : List ContentRecord),
        (fetchCategoryData coll (cacheWrite x 0) 1000).refetched = false
        ∧ (fetchCategoryData coll (cacheWrite x 0) 1000).counts = x)
    ∧ (∀ (x : List (String × Nat)) (coll : List ContentRecord),
        (fetchCategoryData coll (cacheWrite x 0) 3700000).refetched = true
        ∧ (fetchCategoryData coll (cacheWrite x 0) 3700000).counts
            = categoryAggregate coll) := by
  have hread : ∀ (e : CacheEntry) (now : Nat),
      cacheRead (some (encodeEntry e)) now
        = if now - e.timestamp < CATEGORY_CACHE_EXPIRY then some e.data else none := by
    intro e now
    rw [cacheRead, decodeEntry_encodeEntry]
  refine ⟨rfl, ?_, ?_, ?_⟩
  · intro e now
    rw [hread]
    constructor
    · intro h
      by_contra hc
      rw [if_neg hc] at h
      exact Option.noConfusion h
    · intro h
      rw [if_pos h]
  · intro x coll
    have hr : cacheRead (cacheWrite x 0) 1000 = some x :=
      c5_freshness_cache_laws.1 x 0 1000 (by decide)
    rw [fetchCategoryData, hr]
    exact ⟨rfl, rfl⟩
  · intro x coll
    have hr : cacheRead (cacheWrite x 0) 3700000 = none := by
      rw [cacheWrite]
      rw [hread ⟨x, 0⟩ 3700000]
      rw [if_neg (by norm_num [CATEGORY_CACHE_EXPIRY])]
    rw [fetchCategoryData, hr]
    exact ⟨rfl, rfl⟩

/-- Witness for C6: a concrete entry written at `t = 0`, read at `t = 1000`
(hit) — via the iff — and the TTL constant evaluated. -/
theorem c6_cache_ttl_boundary_witness :
    cacheRead (some (encodeEntry ⟨[("a", 1)], 0⟩)) 1000 = some [("a", 1)]
    ∧ ¬ ((3700000 : Nat) - 0 < CATEGORY_CACHE_EXPIRY) := by
  constructor
  · exact (c6_cache_ttl_boundary.2.1 ⟨[("a", 1)], 0⟩ 1000).mpr (by decide)
  · decide

end VideoApp
